import Mathlib

/-
Verification of the multi-shift conjugate gradient solver (CG-M) of
`cusp/krylov/detail/cg_m.inl` against its natural-language specification.

The solver and its per-shift kernels are embedded shallowly over exact
rational arithmetic: vectors are `List ℚ`, the abstract linear operator is a
function together with its advertised dimensions, and the convergence
monitor is an arbitrary predicate of the iteration counter and the current
residual.  Division is the total field division of `ℚ` (yielding `0` on a
zero denominator), mirroring the fact that the source applies its division
formulas without any guard.  Runtime `assert` checks are modelled by
`Option`-returning wrappers that produce `none` exactly when the asserted
condition fails, before any computation.  The unbounded `while` loop of the
solver is modelled with explicit fuel: a run returns `none` when the fuel is
exhausted before the monitor reports completion.
-/

namespace CuspCGM

/-- Conjugate-aware inner product `cusp::blas::dotc(x, y)`; over `ℚ` the
conjugate is the identity, so this is the plain inner product. -/
def dotc (x y : List ℚ) : ℚ := (List.zipWith (· * ·) x y).sum

/-- Embedding of `cusp::blas::axpy(x, y, alpha)`, which performs
`y += alpha * x`; the updated `y` is returned. -/
def axpy (x y : List ℚ) (a : ℚ) : List ℚ :=
  List.zipWith (fun xi yi => yi + a * xi) x y

/-- Embedding of `cusp::blas::scal(x, alpha)`, which performs `x *= alpha`. -/
def scal (x : List ℚ) (a : ℚ) : List ℚ := x.map (fun xi => a * xi)

/-- Three-list analogue of `List.zipWith`, used for the zipped thrust
iterators that drive the per-shift kernels. -/
def zipWith3 (f : ℚ → ℚ → ℚ → ℚ) : List ℚ → List ℚ → List ℚ → List ℚ
  | a :: as, b :: bs, c :: cs => f a b c :: zipWith3 f as bs cs
  | _, _, _ => []

/-- Elementwise transform of a vector with access to the element index, the
shape of `thrust::transform(counter, counter + n, v.begin(), v.begin(), k)`. -/
def transformIdx (f : ℕ → ℚ → ℚ) (v : List ℚ) : List ℚ :=
  List.zipWith f (List.range v.length) v

/-- Functor `cusp::krylov::detail_m::KERNEL_Z`: the zeta update at one shift.
The tuple slots of the source are `(z_1, z_0, z_m1, sig)` and the functor
assigns slot 0 the value
`z_0 * z_m1 * beta_m1 / (beta_0 * alpha_0 * (z_m1 - z_0) + beta_m1 * z_m1 * (1 - beta_0 * sig))`. -/
def KERNEL_Z (beta_m1 beta_0 alpha_0 : ℚ) (z_0 z_m1 sig : ℚ) : ℚ :=
  z_0 * z_m1 * beta_m1 /
    (beta_0 * alpha_0 * (z_m1 - z_0) + beta_m1 * z_m1 * (1 - beta_0 * sig))

/-- Functor `cusp::krylov::detail_m::KERNEL_B`: `beta_0 * z_1 / z_0`. -/
def KERNEL_B (beta_0 : ℚ) (z_1 z_0 : ℚ) : ℚ := beta_0 * z_1 / z_0

/-- Functor `cusp::krylov::detail_m::KERNEL_A`:
`alpha_0 / beta_0 * z_1 * beta_0_s / z_0`, with the source's left-to-right
association. -/
def KERNEL_A (beta_0 alpha_0 : ℚ) (z_0 z_1 beta_0_s : ℚ) : ℚ :=
  alpha_0 / beta_0 * z_1 * beta_0_s / z_0

/-- Functor `cusp::krylov::detail_m::KERNEL_X`: at flattened index `index`,
the new stacked-solution entry is `val - beta_0_s[index / N] * p_0_s[index]`. -/
def KERNEL_X (N : ℕ) (beta_0_s p_0_s : List ℚ) (index : ℕ) (val : ℚ) : ℚ :=
  val - beta_0_s.getD (index / N) 0 * p_0_s.getD index 0

/-- Functor `cusp::krylov::detail_m::KERNEL_P`: at flattened index `index`,
the new stacked search direction is
`z_1_s[index / N] * r_0[index % N] + alpha_0_s[index / N] * val`. -/
def KERNEL_P (N : ℕ) (alpha_0_s z_1_s r_0 : List ℚ) (index : ℕ) (val : ℚ) : ℚ :=
  z_1_s.getD (index / N) 0 * r_0.getD (index % N) 0 +
    alpha_0_s.getD (index / N) 0 * val

/-- Functor `cusp::krylov::detail_m::KERNEL_VCOPY`: the member the source
names `N_t` holds the length of the source array at every call site, and the
functor returns `source[index % N_t]`. -/
def KERNEL_VCOPY (N_t : ℕ) (source : List ℚ) (index : ℕ) : ℚ :=
  source.getD (index % N_t) 0

/-- Iterator overload of `cusp::krylov::trans_m::compute_z_m`: applies
`KERNEL_Z` independently at every shift index. -/
def compute_z_m (z_0_s z_m1_s sig : List ℚ) (beta_m1 beta_0 alpha_0 : ℚ) :
    List ℚ :=
  zipWith3 (KERNEL_Z beta_m1 beta_0 alpha_0) z_0_s z_m1_s sig

/-- Iterator overload of `cusp::krylov::trans_m::compute_b_m`: applies
`KERNEL_B` independently at every shift index. -/
def compute_b_m (z_1_s z_0_s : List ℚ) (beta_0 : ℚ) : List ℚ :=
  List.zipWith (KERNEL_B beta_0) z_1_s z_0_s

/-- Iterator overload of `cusp::krylov::trans_m::compute_a_m`: applies
`KERNEL_A` independently at every shift index. -/
def compute_a_m (z_0_s z_1_s beta_0_s : List ℚ) (beta_0 alpha_0 : ℚ) :
    List ℚ :=
  zipWith3 (KERNEL_A beta_0 alpha_0) z_0_s z_1_s beta_0_s

/-- Computational core of `cusp::krylov::trans_m::compute_xp_m`: the two
`thrust::transform` calls.  The `KERNEL_X` pass runs over the raw (pre-update)
`p_0_s` data, and the `KERNEL_P` pass then overwrites `p_0_s`, also reading
the pre-update values; both sub-updates therefore read the old `p_0_s`. -/
def compute_xp_m (alpha_0_s z_1_s beta_0_s r_0 x_0_s p_0_s : List ℚ) :
    List ℚ × List ℚ :=
  (transformIdx (KERNEL_X r_0.length beta_0_s p_0_s) x_0_s,
   transformIdx (KERNEL_P r_0.length alpha_0_s z_1_s r_0) p_0_s)

/-- Embedding of `cusp::krylov::trans_m::vectorize_copy(source, dest)`: the
first component is the untouched (`const`) source array, the second the fully
overwritten destination. -/
def vectorize_copy (source dest : List ℚ) : List ℚ × List ℚ :=
  (source, (List.range dest.length).map (KERNEL_VCOPY source.length source))

/-- The four arrays touched by the array overload of `compute_z_m`: the
`const` inputs `z_0_s`, `z_m1_s`, `sig` and the output `z_1_s`. -/
structure ZArrays where
  z_0_s : List ℚ
  z_m1_s : List ℚ
  sig : List ℚ
  z_1_s : List ℚ
deriving DecidableEq

/-- Array overload of `cusp::krylov::trans_m::compute_z_m`: the
`assert_same_dimensions` sanity checks run first, and only the `z_1_s` slot
is written.  `none` models a failed assertion. -/
def compute_z_m_arrays (s : ZArrays) (beta_m1 beta_0 alpha_0 : ℚ) :
    Option ZArrays :=
  if s.z_0_s.length = s.z_m1_s.length ∧ s.z_m1_s.length = s.z_1_s.length ∧
      s.z_1_s.length = s.sig.length then
    some { s with
      z_1_s := compute_z_m s.z_0_s s.z_m1_s s.sig beta_m1 beta_0 alpha_0 }
  else
    none

/-- Array overload of `cusp::krylov::trans_m::compute_b_m`, with its
`assert_same_dimensions(z_1_s, z_0_s, beta_0_s)` check. -/
def compute_b_m_arrays (z_1_s z_0_s beta_0_s : List ℚ) (beta_0 : ℚ) :
    Option (List ℚ) :=
  if z_1_s.length = z_0_s.length ∧ z_0_s.length = beta_0_s.length then
    some (compute_b_m z_1_s z_0_s beta_0)
  else
    none

/-- Array overload of `cusp::krylov::trans_m::compute_a_m`, with its two
`assert_same_dimensions` checks. -/
def compute_a_m_arrays (z_0_s z_1_s beta_0_s alpha_0_s : List ℚ)
    (beta_0 alpha_0 : ℚ) : Option (List ℚ) :=
  if z_0_s.length = z_1_s.length ∧ z_0_s.length = alpha_0_s.length ∧
      alpha_0_s.length = beta_0_s.length then
    some (compute_a_m z_0_s z_1_s beta_0_s beta_0 alpha_0)
  else
    none

/-- `cusp::krylov::trans_m::compute_xp_m` with its sanity checks:
`assert_same_dimensions(alpha_0_s, z_1_s, beta_0_s)`,
`assert_same_dimensions(x_0_s, p_0_s)` and `assert(N_t == N * N_s)`. -/
def compute_xp_m_arrays (alpha_0_s z_1_s beta_0_s r_0 x_0_s p_0_s : List ℚ) :
    Option (List ℚ × List ℚ) :=
  if alpha_0_s.length = z_1_s.length ∧ z_1_s.length = beta_0_s.length ∧
      x_0_s.length = p_0_s.length ∧
      x_0_s.length = r_0.length * alpha_0_s.length then
    some (compute_xp_m alpha_0_s z_1_s beta_0_s r_0 x_0_s p_0_s)
  else
    none

/-- Abstract linear operator: advertised dimensions plus the matrix-vector
product `cusp::multiply(A, x, y)` performs. -/
structure Op where
  num_rows : ℕ
  num_cols : ℕ
  mul : List ℚ → List ℚ

/-- Abstract convergence monitor: `finished` may consult the iteration
counter (advanced by `++monitor`) and the current residual. -/
structure Monitor where
  finished : ℕ → List ℚ → Bool

/-- The mutable state of one `cg_m` solve: the caller-visible buffers `x`,
`b`, `sigma` together with every solver-internal scratch vector and scalar
that survives an iteration. -/
structure CGMState where
  x : List ℚ
  b : List ℚ
  sigma : List ℚ
  r_0 : List ℚ
  p_0 : List ℚ
  xx_0 : List ℚ
  p_0_s : List ℚ
  z_m1_s : List ℚ
  z_0_s : List ℚ
  z_1_s : List ℚ
  alpha_0_s : List ℚ
  beta_0_s : List ℚ
  beta_0 : ℚ
  alpha_0 : ℚ
  rsq_1 : ℚ
  iter : ℕ
deriving DecidableEq

/-- Initialization phase of `cg_m` (everything before the `while` loop):
`r_0 ← b`, `rsq_1 ← (r_0, r_0)`, `x ← 0`, `p_0_s ← broadcast(b)`, `p_0 ← b`,
`z_m1_s = z_0_s = 1`, `alpha_0_s = 0`, `beta_0 = 1`, `alpha_0 = 0`.  The
arrays `z_1_s` and `beta_0_s` are value-initialized (to zero) by their
constructors. -/
def cg_m_init (A : Op) (x b sigma : List ℚ) : CGMState :=
  { x := List.replicate x.length 0
    b := b
    sigma := sigma
    r_0 := b
    p_0 := b
    xx_0 := List.replicate A.num_rows 0
    p_0_s := (vectorize_copy b (List.replicate x.length 0)).2
    z_m1_s := List.replicate sigma.length 1
    z_0_s := List.replicate sigma.length 1
    z_1_s := List.replicate sigma.length 0
    alpha_0_s := List.replicate sigma.length 0
    beta_0_s := List.replicate sigma.length 0
    beta_0 := 1
    alpha_0 := 0
    rsq_1 := dotc b b
    iter := 0 }

/-- One iteration of the `cg_m` `while` loop, in the statement order of the
source: recycle `rsq_0`/`beta_m1`, multiply, `pAp`, `beta_0`, residual
update, zeta update, per-shift beta update, `rsq_1`/`alpha_0`/`alpha_0_inv`,
`xx_0` update, the two-step base search-direction update, per-shift alpha
update, combined x/p update, zeta recycle, monitor advance. -/
def cg_m_step (A : Op) (s : CGMState) : CGMState :=
  let rsq_0 := s.rsq_1
  let beta_m1 := s.beta_0
  let Ap := A.mul s.p_0
  let pAp := dotc s.p_0 Ap
  let beta_0 := (-rsq_0) / pAp
  let r_0 := axpy Ap s.r_0 beta_0
  let z_1_s := compute_z_m s.z_0_s s.z_m1_s s.sigma beta_m1 beta_0 s.alpha_0
  let beta_0_s := compute_b_m z_1_s s.z_0_s beta_0
  let rsq_1 := dotc r_0 r_0
  let alpha_0 := rsq_1 / rsq_0
  let alpha_0_inv := rsq_0 / rsq_1
  let xx_0 := axpy s.p_0 s.xx_0 (-beta_0)
  let p_0 := scal (axpy r_0 s.p_0 alpha_0_inv) alpha_0
  let alpha_0_s := compute_a_m s.z_0_s z_1_s beta_0_s beta_0 alpha_0
  let xp := compute_xp_m alpha_0_s z_1_s beta_0_s r_0 s.x s.p_0_s
  { x := xp.1
    b := s.b
    sigma := s.sigma
    r_0 := r_0
    p_0 := p_0
    xx_0 := xx_0
    p_0_s := xp.2
    z_m1_s := s.z_0_s
    z_0_s := z_1_s
    z_1_s := z_1_s
    alpha_0_s := alpha_0_s
    beta_0_s := beta_0_s
    beta_0 := beta_0
    alpha_0 := alpha_0
    rsq_1 := rsq_1
    iter := s.iter + 1 }

/-- The `while (!monitor.finished(r_0))` loop with explicit fuel: `none`
means the fuel ran out while the monitor still reported not-finished. -/
def cg_m_loop (A : Op) (M : Monitor) : ℕ → CGMState → Option CGMState
  | 0, s => if M.finished s.iter s.r_0 then some s else none
  | n + 1, s =>
      if M.finished s.iter s.r_0 then some s
      else cg_m_loop A M n (cg_m_step A s)

/-- The monitor-taking overload of `cusp::krylov::cg_m`. -/
def cg_m (A : Op) (x b sigma : List ℚ) (M : Monitor) (fuel : ℕ) :
    Option CGMState :=
  cg_m_loop A M fuel (cg_m_init A x b sigma)

/-- `cg_m` behind its three entry `assert`s:
`A.num_rows == A.num_cols`, `N_t == N * N_s` and `N == len(b)`.  The outer
`none` models an assertion failure before any arithmetic. -/
def cg_m_checked (A : Op) (x b sigma : List ℚ) (M : Monitor) (fuel : ℕ) :
    Option (Option CGMState) :=
  if A.num_rows = A.num_cols ∧ x.length = A.num_rows * sigma.length ∧
      b.length = A.num_rows then
    some (cg_m A x b sigma M fuel)
  else
    none

/-- Variant of `cg_m_step` with the dead `xx_0` accumulator update removed;
every other statement is unchanged. -/
def cg_m_step_noxx (A : Op) (s : CGMState) : CGMState :=
  let rsq_0 := s.rsq_1
  let beta_m1 := s.beta_0
  let Ap := A.mul s.p_0
  let pAp := dotc s.p_0 Ap
  let beta_0 := (-rsq_0) / pAp
  let r_0 := axpy Ap s.r_0 beta_0
  let z_1_s := compute_z_m s.z_0_s s.z_m1_s s.sigma beta_m1 beta_0 s.alpha_0
  let beta_0_s := compute_b_m z_1_s s.z_0_s beta_0
  let rsq_1 := dotc r_0 r_0
  let alpha_0 := rsq_1 / rsq_0
  let alpha_0_inv := rsq_0 / rsq_1
  let p_0 := scal (axpy r_0 s.p_0 alpha_0_inv) alpha_0
  let alpha_0_s := compute_a_m s.z_0_s z_1_s beta_0_s beta_0 alpha_0
  let xp := compute_xp_m alpha_0_s z_1_s beta_0_s r_0 s.x s.p_0_s
  { x := xp.1
    b := s.b
    sigma := s.sigma
    r_0 := r_0
    p_0 := p_0
    xx_0 := s.xx_0
    p_0_s := xp.2
    z_m1_s := s.z_0_s
    z_0_s := z_1_s
    z_1_s := z_1_s
    alpha_0_s := alpha_0_s
    beta_0_s := beta_0_s
    beta_0 := beta_0
    alpha_0 := alpha_0
    rsq_1 := rsq_1
    iter := s.iter + 1 }

/-- The loop of the `xx_0`-free variant of `cg_m`. -/
def cg_m_loop_noxx (A : Op) (M : Monitor) : ℕ → CGMState → Option CGMState
  | 0, s => if M.finished s.iter s.r_0 then some s else none
  | n + 1, s =>
      if M.finished s.iter s.r_0 then some s
      else cg_m_loop_noxx A M n (cg_m_step_noxx A s)

/-- The `xx_0`-free variant of `cg_m`. -/
def cg_m_noxx (A : Op) (x b sigma : List ℚ) (M : Monitor) (fuel : ℕ) :
    Option CGMState :=
  cg_m_loop_noxx A M fuel (cg_m_init A x b sigma)

/-- Plain-CG state: solution, residual, search direction, the carried
residual norm square, and the monitor's iteration counter. -/
structure CGState where
  x : List ℚ
  r : List ℚ
  p : List ℚ
  rsq : ℚ
  iter : ℕ
deriving DecidableEq

/-- Modelled from the spec: the repository's plain unshifted conjugate
gradient solver is not part of the excerpt (only `cg_m` is), so the spec's
"plain unshifted CG's result on the same system" is modelled as textbook
conjugate gradient with zero initial guess: `alpha = (r,r)/(p,Ap)`,
`x += alpha*p`, `r -= alpha*Ap`, `beta = (r',r')/(r,r)`, `p = r' + beta*p`. -/
def cg_step (A : Op) (t : CGState) : CGState :=
  let Ap := A.mul t.p
  let pAp := dotc t.p Ap
  let alpha := t.rsq / pAp
  let x := axpy t.p t.x alpha
  let r := axpy Ap t.r (-alpha)
  let rsq1 := dotc r r
  let beta := rsq1 / t.rsq
  let p := axpy t.p r beta
  { x := x, r := r, p := p, rsq := rsq1, iter := t.iter + 1 }

/-- Modelled from the spec: plain CG initialization with zero initial guess,
so `r = b`, `p = b`. -/
def cg_init (x b : List ℚ) : CGState :=
  { x := List.replicate x.length 0, r := b, p := b, rsq := dotc b b, iter := 0 }

/-- Modelled from the spec: the plain-CG iteration loop, governed by the same
monitor contract as `cg_m`. -/
def cg_loop (A : Op) (M : Monitor) : ℕ → CGState → Option CGState
  | 0, t => if M.finished t.iter t.r then some t else none
  | n + 1, t =>
      if M.finished t.iter t.r then some t
      else cg_loop A M n (cg_step A t)

/-- Modelled from the spec: the plain unshifted CG solver. -/
def cg (A : Op) (x b : List ℚ) (M : Monitor) (fuel : ℕ) : Option CGState :=
  cg_loop A M fuel (cg_init x b)

/-! ### Concrete operators, monitors and states used by the theorems -/

/-- The 3-by-3 identity operator. -/
def idOp3 : Op := { num_rows := 3, num_cols := 3, mul := fun v => v }

/-- Right-hand side `b = [1, 1, 1]`. -/
def b3 : List ℚ := [1, 1, 1]

/-- Shifts `sigma = [0, 1, 2]`. -/
def sigma3 : List ℚ := [0, 1, 2]

/-- Caller's stacked solution buffer, of length `N * N_s = 9`. -/
def x9 : List ℚ := List.replicate 9 0

/-- A monitor that declares finished exactly when the residual is the zero
vector. -/
def zeroResidualMonitor : Monitor :=
  { finished := fun _ r => decide (r = List.replicate r.length 0) }

/-- The 2-by-2 diagonal operator `diag(1, 2)` (symmetric positive definite). -/
def opC2 : Op :=
  { num_rows := 2, num_cols := 2, mul := fun v => [v.getD 0 0, 2 * v.getD 1 0] }

/-- The initialization state of a `cg_m` call on `A = diag(1, 2)`,
`b = [1, 1]`, `sigma = [0]`.  The first iteration from here computes
`pAp = 3`, `rsq_0 = 2` and `rsq_1 = 2/9`, so every division in that iteration
has a nonzero denominator and the exact rational trace coincides with the
program's arithmetic (no breakdown). -/
def sC2 : CGMState := cg_m_init opC2 [0, 0] [1, 1] [0]

/-- A monitor that never reports completion. -/
def neverMonitor : Monitor := { finished := fun _ _ => false }

/-- A monitor that reports completion immediately. -/
def alwaysMonitor : Monitor := { finished := fun _ _ => true }

/-- Pointwise agreement of two solver states on every field except the
internal accumulator `xx_0`. -/
def AgreeNoxx (s t : CGMState) : Prop :=
  s.x = t.x ∧ s.b = t.b ∧ s.sigma = t.sigma ∧ s.r_0 = t.r_0 ∧ s.p_0 = t.p_0 ∧
  s.p_0_s = t.p_0_s ∧ s.z_m1_s = t.z_m1_s ∧ s.z_0_s = t.z_0_s ∧
  s.z_1_s = t.z_1_s ∧ s.alpha_0_s = t.alpha_0_s ∧ s.beta_0_s = t.beta_0_s ∧
  s.beta_0 = t.beta_0 ∧ s.alpha_0 = t.alpha_0 ∧ s.rsq_1 = t.rsq_1 ∧
  s.iter = t.iter

/-- State correspondence between a `cg_m` run on the single zero shift and a
plain-CG run: the stacked solution, residual and both search directions
agree, the zeta generations are pinned at one, the carried residual norm
square and iteration counters agree, and the carried base `beta_0` is
nonzero. -/
def Corr (s : CGMState) (t : CGState) : Prop :=
  s.sigma = [0] ∧ s.x = t.x ∧ s.r_0 = t.r ∧ s.p_0 = t.p ∧ s.p_0_s = t.p ∧
  s.z_0_s = [1] ∧ s.z_m1_s = [1] ∧ s.rsq_1 = t.rsq ∧ s.beta_0 ≠ 0 ∧
  s.iter = t.iter ∧ t.rsq = dotc t.r t.r ∧ t.r.length = t.p.length ∧
  t.x.length = t.p.length

/-- Exactness condition on one plain-CG state: either the monitor is already
finished there, or neither the residual norm square nor `(p, Ap)` vanishes
(no numerical breakdown at a live iteration; guaranteed for an SPD operator
before convergence). -/
def cgOk (A : Op) (M : Monitor) (t : CGState) : Prop :=
  M.finished t.iter t.r = true ∨
    (dotc t.r t.r ≠ 0 ∧ dotc t.p (A.mul t.p) ≠ 0)

/-! ### Helper lemmas about the list primitives -/

lemma length_transformIdx (f : ℕ → ℚ → ℚ) (v : List ℚ) :
    (transformIdx f v).length = v.length := by
  simp [transformIdx]

lemma getD_transformIdx (f : ℕ → ℚ → ℚ) (v : List ℚ) (i : ℕ)
    (h : i < v.length) :
    (transformIdx f v).getD i 0 = f i (v.getD i 0) := by
  rw [List.getD_eq_getElem _ 0 (by rw [length_transformIdx]; exact h),
    List.getD_eq_getElem _ 0 h]
  simp [transformIdx, List.getElem_zipWith]

lemma length_zipWith3 (f : ℚ → ℚ → ℚ → ℚ) :
    ∀ l1 l2 l3 : List ℚ,
      (zipWith3 f l1 l2 l3).length = min l1.length (min l2.length l3.length)
  | a :: as, b :: bs, c :: cs => by
      simp [zipWith3, length_zipWith3 f as bs cs]
      omega
  | [], _, _ => by simp [zipWith3]
  | _ :: _, [], _ => by simp [zipWith3]
  | _ :: _, _ :: _, [] => by simp [zipWith3]

lemma getD_zipWith3 (f : ℚ → ℚ → ℚ → ℚ) :
    ∀ (l1 l2 l3 : List ℚ) (i : ℕ), i < l1.length → i < l2.length →
      i < l3.length →
      (zipWith3 f l1 l2 l3).getD i 0 = f (l1.getD i 0) (l2.getD i 0) (l3.getD i 0)
  | a :: as, b :: bs, c :: cs, 0, _, _, _ => rfl
  | a :: as, b :: bs, c :: cs, i + 1, h1, h2, h3 => by
      simpa [zipWith3] using
        getD_zipWith3 f as bs cs i (by simpa using h1) (by simpa using h2)
          (by simpa using h3)
  | [], _, _, i, h1, _, _ => by simp at h1
  | _ :: _, [], _, i, _, h2, _ => by simp at h2
  | _ :: _, _ :: _, [], i, _, _, h3 => by simp at h3

lemma dotc_cons (a b : ℚ) (x y : List ℚ) :
    dotc (a :: x) (b :: y) = a * b + dotc x y := by
  simp [dotc]

lemma dotc_self_nonneg (v : List ℚ) : 0 ≤ dotc v v := by
  induction v with
  | nil => simp [dotc]
  | cons a t ih =>
      rw [dotc_cons]
      exact add_nonneg (mul_self_nonneg a) ih

lemma dotc_self_eq_zero {v : List ℚ} (h : dotc v v = 0) :
    ∀ i, (hi : i < v.length) → v[i] = 0 := by
  induction v with
  | nil => intro i hi; simp at hi
  | cons a t ih =>
      rw [dotc_cons] at h
      have ht : dotc t t = 0 := by
        nlinarith [dotc_self_nonneg t, mul_self_nonneg a]
      have ha : a = 0 := by
        have : a * a = 0 := by nlinarith [dotc_self_nonneg t, mul_self_nonneg a]
        exact mul_self_eq_zero.mp this
      intro i hi
      match i with
      | 0 => simpa using ha
      | k + 1 => simpa using ih ht k (by simpa using hi)

lemma scal_axpy_eq (R P : List ℚ) (a ai : ℚ) (h : a * ai = 1) :
    scal (axpy R P ai) a = List.zipWith (fun ri pi => ri + a * pi) R P := by
  induction R generalizing P with
  | nil => simp [scal, axpy]
  | cons r rs ih =>
      cases P with
      | nil => simp [scal, axpy]
      | cons p ps =>
          have ih' := ih ps
          simp only [scal, axpy] at ih'
          simp only [scal, axpy, List.zipWith_cons_cons, List.map_cons]
          rw [ih']
          congr 1
          rw [mul_add, ← mul_assoc, h]
          ring

lemma cg_m_loop_finished (A : Op) (M : Monitor) (n : ℕ) (s : CGMState)
    (h : M.finished s.iter s.r_0 = true) : cg_m_loop A M n s = some s := by
  cases n <;> simp [cg_m_loop, h]

/-! ### The concrete scenario of the spec (claim C1) -/

/-- C1: for `A = Identity(3)`, `b = [1,1,1]`, `sigma = [0,1,2]` and a monitor
that is finished exactly on a zero residual, the first iteration computes
`pAp = 3` (with `rsq_0 = 3`) and `beta_0 = -rsq_0 / pAp = -1`, the base
residual becomes zero, and for every fuel bound the solver stops after
exactly one iteration with stacked solution
`x = [1,1,1, 1/2,1/2,1/2, 1/3,1/3,1/3]`, i.e. `x_i = b / (1 + sigma_i)`. -/
theorem C1_concrete_scenario :
    dotc (cg_m_init idOp3 x9 b3 sigma3).p_0
        (idOp3.mul (cg_m_init idOp3 x9 b3 sigma3).p_0) = 3 ∧
    (cg_m_init idOp3 x9 b3 sigma3).rsq_1 = 3 ∧
    (cg_m_step idOp3 (cg_m_init idOp3 x9 b3 sigma3)).beta_0 = -1 ∧
    (cg_m_step idOp3 (cg_m_init idOp3 x9 b3 sigma3)).r_0 = [0, 0, 0] ∧
    ∀ fuel : ℕ,
      (cg_m idOp3 x9 b3 sigma3 zeroResidualMonitor (fuel + 1)).map
          (fun s => (s.x, s.iter)) =
        some ([1, 1, 1, 1/2, 1/2, 1/2, 1/3, 1/3, 1/3], 1) := by
  have hrange9 : List.range 9 = [0, 1, 2, 3, 4, 5, 6, 7, 8] := rfl
  have hrepl9 : List.replicate 9 (0 : ℚ) = [0, 0, 0, 0, 0, 0, 0, 0, 0] := rfl
  have hrepl3 : List.replicate 3 (0 : ℚ) = [0, 0, 0] := rfl
  have hinit : cg_m_init idOp3 x9 b3 sigma3 =
      { x := [0, 0, 0, 0, 0, 0, 0, 0, 0]
        b := [1, 1, 1]
        sigma := [0, 1, 2]
        r_0 := [1, 1, 1]
        p_0 := [1, 1, 1]
        xx_0 := [0, 0, 0]
        p_0_s := [1, 1, 1, 1, 1, 1, 1, 1, 1]
        z_m1_s := [1, 1, 1]
        z_0_s := [1, 1, 1]
        z_1_s := [0, 0, 0]
        alpha_0_s := [0, 0, 0]
        beta_0_s := [0, 0, 0]
        beta_0 := 1
        alpha_0 := 0
        rsq_1 := 3
        iter := 0 } := by
    norm_num [cg_m_init, idOp3, x9, b3, sigma3, vectorize_copy, KERNEL_VCOPY,
      dotc, hrepl9, hrange9, List.replicate]
  have hstep : cg_m_step idOp3 (cg_m_init idOp3 x9 b3 sigma3) =
      { x := [1, 1, 1, 1/2, 1/2, 1/2, 1/3, 1/3, 1/3]
        b := [1, 1, 1]
        sigma := [0, 1, 2]
        r_0 := [0, 0, 0]
        p_0 := [0, 0, 0]
        xx_0 := [1, 1, 1]
        p_0_s := [0, 0, 0, 0, 0, 0, 0, 0, 0]
        z_m1_s := [1, 1, 1]
        z_0_s := [1, 1/2, 1/3]
        z_1_s := [1, 1/2, 1/3]
        alpha_0_s := [0, 0, 0]
        beta_0_s := [-1, -1/2, -1/3]
        beta_0 := -1
        alpha_0 := 0
        rsq_1 := 0
        iter := 1 } := by
    rw [hinit]
    norm_num [cg_m_step, idOp3, dotc, axpy, scal, compute_z_m, compute_b_m,
      compute_a_m, compute_xp_m, transformIdx, zipWith3, KERNEL_Z, KERNEL_B,
      KERNEL_A, KERNEL_X, KERNEL_P, hrange9]
  have hmonF : zeroResidualMonitor.finished (cg_m_init idOp3 x9 b3 sigma3).iter
      (cg_m_init idOp3 x9 b3 sigma3).r_0 = false := by
    rw [hinit]
    show decide ([(1 : ℚ), 1, 1] = List.replicate 3 0) = false
    rw [hrepl3, decide_eq_false]
    norm_num
  have hmonT : zeroResidualMonitor.finished
      (cg_m_step idOp3 (cg_m_init idOp3 x9 b3 sigma3)).iter
      (cg_m_step idOp3 (cg_m_init idOp3 x9 b3 sigma3)).r_0 = true := by
    rw [hstep]
    show decide ([(0 : ℚ), 0, 0] = List.replicate 3 0) = true
    rw [hrepl3, decide_eq_true]
    rfl
  refine ⟨by rw [hinit]; norm_num [idOp3, dotc], by rw [hinit],
    by rw [hstep], by rw [hstep], ?_⟩
  intro fuel
  rw [cg_m]
  simp only [cg_m_loop]
  rw [if_neg (by rw [hmonF]; exact Bool.false_ne_true),
    cg_m_loop_finished _ _ _ _ hmonT, hstep]
  rfl

/-! ### Claim C2: the base search-direction recurrence -/

/-- C2 is false as stated: on the first iteration of `cg_m` for
`A = diag(1, 2)`, `b = [1, 1]`, `sigma = [0]` — a breakdown-free trace, as
the conjuncts `pAp = 3`, `rsq_0 = 2`, `rsq_1 = 2/9` certify — the code's new
base search direction is `[4/9, -2/9]` (with `alpha_0 = 1/9` and updated
residual `[1/3, -1/3]`), but the claimed net effect
`alpha_0 * r_0 + p_0_old` evaluates to `[28/27, 26/27]`. -/
theorem C2_counterexample :
    dotc sC2.p_0 (opC2.mul sC2.p_0) = 3 ∧
    sC2.rsq_1 = 2 ∧
    (cg_m_step opC2 sC2).rsq_1 = 2/9 ∧
    (cg_m_step opC2 sC2).alpha_0 = 1/9 ∧
    (cg_m_step opC2 sC2).r_0 = [1/3, -1/3] ∧
    (cg_m_step opC2 sC2).p_0 = [4/9, -2/9] ∧
    List.zipWith (fun ri pi => (cg_m_step opC2 sC2).alpha_0 * ri + pi)
      (cg_m_step opC2 sC2).r_0 sC2.p_0 = [28/27, 26/27] ∧
    (cg_m_step opC2 sC2).p_0 ≠
      List.zipWith (fun ri pi => (cg_m_step opC2 sC2).alpha_0 * ri + pi)
        (cg_m_step opC2 sC2).r_0 sC2.p_0 := by
  have hrange2 : List.range 2 = [0, 1] := rfl
  have hinit2 : sC2 =
      { x := [0, 0], b := [1, 1], sigma := [0], r_0 := [1, 1], p_0 := [1, 1]
        xx_0 := [0, 0], p_0_s := [1, 1], z_m1_s := [1], z_0_s := [1]
        z_1_s := [0], alpha_0_s := [0], beta_0_s := [0], beta_0 := 1
        alpha_0 := 0, rsq_1 := 2, iter := 0 } := by
    norm_num [sC2, cg_m_init, opC2, vectorize_copy, KERNEL_VCOPY, dotc,
      hrange2, List.replicate]
  have hstep2 : cg_m_step opC2 sC2 =
      { x := [2/3, 2/3], b := [1, 1], sigma := [0], r_0 := [1/3, -1/3]
        p_0 := [4/9, -2/9], xx_0 := [2/3, 2/3], p_0_s := [4/9, -2/9]
        z_m1_s := [1], z_0_s := [1], z_1_s := [1], alpha_0_s := [1/9]
        beta_0_s := [-2/3], beta_0 := -2/3, alpha_0 := 1/9, rsq_1 := 2/9
        iter := 1 } := by
    rw [hinit2]
    norm_num [cg_m_step, opC2, dotc, axpy, scal, compute_z_m, compute_b_m,
      compute_a_m, compute_xp_m, transformIdx, zipWith3, KERNEL_Z, KERNEL_B,
      KERNEL_A, KERNEL_X, KERNEL_P, hrange2]
  refine ⟨by rw [hinit2]; norm_num [opC2, dotc], by rw [hinit2],
    by rw [hstep2], by rw [hstep2], by rw [hstep2], by rw [hstep2], ?_, ?_⟩
  · rw [hstep2, hinit2]
    norm_num
  · rw [hstep2, hinit2]
    norm_num

/-- C2 amended: in every iteration the code performs
`p_0 += alpha_0_inv * r_0` followed by `p_0 *= alpha_0`, so whenever the old
and the new residual norm squares are nonzero, the net effect on the base
search direction is `p_0_new = r_0 + alpha_0 * p_0_old` (with the freshly
updated residual `r_0`). -/
theorem C2_amended_recurrence (A : Op) (s : CGMState) (h0 : s.rsq_1 ≠ 0)
    (h1 : (cg_m_step A s).rsq_1 ≠ 0) :
    (cg_m_step A s).p_0 =
      List.zipWith (fun ri pi => ri + (cg_m_step A s).alpha_0 * pi)
        (cg_m_step A s).r_0 s.p_0 := by
  simp only [cg_m_step] at h1 ⊢
  refine scal_axpy_eq _ _ _ _ ?_
  rw [div_mul_div_comm, mul_comm]
  exact div_self (mul_ne_zero h0 h1)

/-- Witness for the amended C2 at the breakdown-free state `sC2`
(`rsq_0 = 2`, `rsq_1 = 2/9`). -/
theorem C2_amended_recurrence_witness :
    sC2.rsq_1 ≠ 0 ∧ (cg_m_step opC2 sC2).rsq_1 ≠ 0 ∧
    (cg_m_step opC2 sC2).p_0 =
      List.zipWith (fun ri pi => ri + (cg_m_step opC2 sC2).alpha_0 * pi)
        (cg_m_step opC2 sC2).r_0 sC2.p_0 := by
  have h0 : sC2.rsq_1 ≠ 0 := by norm_num [sC2, cg_m_init, dotc]
  have h1 : (cg_m_step opC2 sC2).rsq_1 ≠ 0 := by
    norm_num [cg_m_step, sC2, cg_m_init, opC2, dotc, axpy]
  exact ⟨h0, h1, C2_amended_recurrence opC2 sC2 h0 h1⟩

/-! ### Claim C3: the zeta update -/

/-- C3: for all shift arrays of a common length and all scalars, the array
overload of `compute_z_m` succeeds and writes, independently per shift `i`,
`z_1[i] = (z_0[i] * z_m1[i] * beta_m1) / (beta_0 * alpha_0 * (z_m1[i] - z_0[i])
+ beta_m1 * z_m1[i] * (1 - beta_0 * sigma[i]))`, leaving `z_0`, `z_m1` and
`sigma` unchanged.  The scalars are unconstrained: no guard is applied when
the denominator vanishes (the division is the total field division). -/
theorem C3_zeta_update (z_0_s z_m1_s sig z_1_s : List ℚ)
    (beta_m1 beta_0 alpha_0 : ℚ)
    (h1 : z_0_s.length = z_m1_s.length) (h2 : z_m1_s.length = z_1_s.length)
    (h3 : z_1_s.length = sig.length) (i : ℕ) (hi : i < sig.length) :
    ∃ s', compute_z_m_arrays ⟨z_0_s, z_m1_s, sig, z_1_s⟩ beta_m1 beta_0 alpha_0 =
        some s' ∧
      s'.z_1_s.getD i 0 =
        z_0_s.getD i 0 * z_m1_s.getD i 0 * beta_m1 /
          (beta_0 * alpha_0 * (z_m1_s.getD i 0 - z_0_s.getD i 0) +
            beta_m1 * z_m1_s.getD i 0 * (1 - beta_0 * sig.getD i 0)) ∧
      s'.z_0_s = z_0_s ∧ s'.z_m1_s = z_m1_s ∧ s'.sig = sig := by
  refine ⟨{ z_0_s := z_0_s, z_m1_s := z_m1_s, sig := sig,
            z_1_s := compute_z_m z_0_s z_m1_s sig beta_m1 beta_0 alpha_0 },
    ?_, ?_, rfl, rfl, rfl⟩
  · simp only [compute_z_m_arrays]
    rw [if_pos ⟨h1, h2, h3⟩]
  · show (compute_z_m z_0_s z_m1_s sig beta_m1 beta_0 alpha_0).getD i 0 = _
    have hi0 : i < z_0_s.length := by omega
    have hi1 : i < z_m1_s.length := by omega
    rw [compute_z_m, getD_zipWith3 _ _ _ _ i hi0 hi1 hi]
    rfl

/-- Witness for C3 at a concrete one-shift instance. -/
theorem C3_zeta_update_witness :
    ∃ s', compute_z_m_arrays ⟨[2], [3], [5], [0]⟩ 7 11 13 = some s' ∧
      s'.z_1_s.getD 0 0 =
        [(2 : ℚ)].getD 0 0 * [(3 : ℚ)].getD 0 0 * 7 /
          (11 * 13 * ([(3 : ℚ)].getD 0 0 - [(2 : ℚ)].getD 0 0) +
            7 * [(3 : ℚ)].getD 0 0 * (1 - 11 * [(5 : ℚ)].getD 0 0)) ∧
      s'.z_0_s = [2] ∧ s'.z_m1_s = [3] ∧ s'.sig = [5] :=
  C3_zeta_update [2] [3] [5] [0] 7 11 13 rfl rfl rfl 0 (by norm_num)

/-! ### Claim C4: the combined x/p update -/

/-- C4: with well-formed lengths, `compute_xp_m` succeeds and, at flattened
index `k = s * N + j`, sets `x[k] = x[k] - beta_0_s[s] * p[k]` and
`p[k] = z_1_s[s] * r_0[j] + alpha_0_s[s] * p[k]`, both reading the pre-update
`p`. -/
theorem C4_xp_update (alpha_0_s z_1_s beta_0_s r_0 x_0_s p_0_s : List ℚ)
    (hN : 1 ≤ r_0.length)
    (h1 : alpha_0_s.length = z_1_s.length) (h2 : z_1_s.length = beta_0_s.length)
    (h3 : x_0_s.length = p_0_s.length)
    (h4 : x_0_s.length = r_0.length * alpha_0_s.length)
    (s j : ℕ) (hs : s < alpha_0_s.length) (hj : j < r_0.length) :
    ∃ xp, compute_xp_m_arrays alpha_0_s z_1_s beta_0_s r_0 x_0_s p_0_s =
        some xp ∧
      xp.1.getD (s * r_0.length + j) 0 =
        x_0_s.getD (s * r_0.length + j) 0 -
          beta_0_s.getD s 0 * p_0_s.getD (s * r_0.length + j) 0 ∧
      xp.2.getD (s * r_0.length + j) 0 =
        z_1_s.getD s 0 * r_0.getD j 0 +
          alpha_0_s.getD s 0 * p_0_s.getD (s * r_0.length + j) 0 := by
  have hk : s * r_0.length + j < x_0_s.length := by
    rw [h4]
    calc s * r_0.length + j < (s + 1) * r_0.length := by
          rw [add_mul, one_mul]; omega
      _ ≤ alpha_0_s.length * r_0.length := Nat.mul_le_mul_right _ hs
      _ = r_0.length * alpha_0_s.length := Nat.mul_comm _ _
  have hk' : s * r_0.length + j < p_0_s.length := by omega
  have hdiv : (s * r_0.length + j) / r_0.length = s := by
    rw [mul_comm, Nat.mul_add_div (by omega), Nat.div_eq_of_lt hj]
    omega
  have hmod : (s * r_0.length + j) % r_0.length = j := by
    rw [mul_comm, Nat.mul_add_mod, Nat.mod_eq_of_lt hj]
  refine ⟨compute_xp_m alpha_0_s z_1_s beta_0_s r_0 x_0_s p_0_s, ?_, ?_, ?_⟩
  · simp only [compute_xp_m_arrays]
    rw [if_pos ⟨h1, h2, h3, h4⟩]
  · show (transformIdx (KERNEL_X r_0.length beta_0_s p_0_s) x_0_s).getD _ 0 = _
    rw [getD_transformIdx _ _ _ hk, KERNEL_X, hdiv]
  · show (transformIdx (KERNEL_P r_0.length alpha_0_s z_1_s r_0) p_0_s).getD _ 0 = _
    rw [getD_transformIdx _ _ _ hk', KERNEL_P, hdiv, hmod]

/-- Witness for C4 at a concrete single-shift, single-row instance. -/
theorem C4_xp_update_witness :
    ∃ xp, compute_xp_m_arrays [2] [3] [4] [1] [5] [6] = some xp ∧
      xp.1.getD (0 * [(1 : ℚ)].length + 0) 0 =
        [(5 : ℚ)].getD (0 * [(1 : ℚ)].length + 0) 0 -
          [(4 : ℚ)].getD 0 0 * [(6 : ℚ)].getD (0 * [(1 : ℚ)].length + 0) 0 ∧
      xp.2.getD (0 * [(1 : ℚ)].length + 0) 0 =
        [(3 : ℚ)].getD 0 0 * [(1 : ℚ)].getD 0 0 +
          [(2 : ℚ)].getD 0 0 * [(6 : ℚ)].getD (0 * [(1 : ℚ)].length + 0) 0 :=
  C4_xp_update [2] [3] [4] [1] [5] [6] (by norm_num) rfl rfl rfl rfl 0 0
    (by norm_num) (by norm_num)

/-! ### Claim C5: the broadcast copy -/

/-- C5: for a source of length at least 1 and a destination whose length is
any multiple of the source length (including zero), `vectorize_copy` yields a
destination of the same length with `dest[j] = source[j % N]` for every
`j < N_t`, and the source comes through unchanged. -/
theorem C5_vectorize_copy (source dest : List ℚ) (hN : 1 ≤ source.length)
    (hmul : dest.length % source.length = 0) :
    (vectorize_copy source dest).2.length = dest.length ∧
    (∀ j, j < dest.length →
      (vectorize_copy source dest).2.getD j 0 =
        source.getD (j % source.length) 0) ∧
    (vectorize_copy source dest).1 = source := by
  refine ⟨by simp [vectorize_copy], ?_, rfl⟩
  intro j hj
  simp only [vectorize_copy]
  rw [List.getD_eq_getElem _ 0 (by simpa using hj), List.getElem_map,
    List.getElem_range]
  rfl

/-- Witness for C5 with a length-2 source and a length-4 destination. -/
theorem C5_vectorize_copy_witness :
    (vectorize_copy [1, 2] [0, 0, 0, 0]).2.length = [(0 : ℚ), 0, 0, 0].length ∧
    (∀ j, j < [(0 : ℚ), 0, 0, 0].length →
      (vectorize_copy [1, 2] [0, 0, 0, 0]).2.getD j 0 =
        [(1 : ℚ), 2].getD (j % [(1 : ℚ), 2].length) 0) ∧
    (vectorize_copy [1, 2] [0, 0, 0, 0]).1 = [1, 2] :=
  C5_vectorize_copy [1, 2] [0, 0, 0, 0] (by norm_num) (by norm_num)

/-! ### Claim C7: termination is delegated entirely to the monitor -/

lemma cg_m_loop_never (A : Op) (M : Monitor)
    (h : ∀ k r, M.finished k r = false) :
    ∀ (n : ℕ) (s : CGMState), cg_m_loop A M n s = none := by
  intro n
  induction n with
  | zero => intro s; simp [cg_m_loop, h]
  | succ n ih => intro s; simp [cg_m_loop, h, ih]

/-- C7: the loop is guarded only by `monitor.finished(r_0)`, evaluated before
each iteration including the zeroth.  If the monitor never reports finished,
no fuel bound suffices (the loop never terminates); if it is finished on the
initial residual `b`, no iteration body executes and the solver returns its
freshly initialized state (with `x` zero-filled). -/
theorem C7_monitor_termination (A : Op) (x b sigma : List ℚ) (M : Monitor) :
    ((∀ k r, M.finished k r = false) →
      ∀ fuel, cg_m A x b sigma M fuel = none) ∧
    (M.finished 0 b = true →
      ∀ fuel, cg_m A x b sigma M fuel = some (cg_m_init A x b sigma)) := by
  constructor
  · intro h fuel
    exact cg_m_loop_never A M h fuel _
  · intro h fuel
    exact cg_m_loop_finished A M fuel _ h

/-- Witness for C7: a never-finishing monitor exhausts any fuel, and an
immediately-finished monitor returns the initialized state. -/
theorem C7_monitor_termination_witness :
    cg_m idOp3 x9 b3 sigma3 neverMonitor 5 = none ∧
    cg_m idOp3 x9 b3 sigma3 alwaysMonitor 5 =
      some (cg_m_init idOp3 x9 b3 sigma3) :=
  ⟨(C7_monitor_termination idOp3 x9 b3 sigma3 neverMonitor).1 (fun _ _ => rfl) 5,
   (C7_monitor_termination idOp3 x9 b3 sigma3 alwaysMonitor).2 rfl 5⟩

/-! ### Claim C8: dimension assertions fail fast -/

/-- C8: `cg_m` fails its entry assertions (returning `none` before any
arithmetic) whenever `A` is not square, `len(x) != N * len(sigma)` or
`len(b) != N`; and each kernel entry point (`compute_z_m`, `compute_b_m`,
`compute_a_m`, `compute_xp_m`) fails its own dimension assertions before
computing. -/
theorem C8_dimension_asserts :
    (∀ (A : Op) (x b sigma : List ℚ) (M : Monitor) (fuel : ℕ),
      ¬(A.num_rows = A.num_cols ∧ x.length = A.num_rows * sigma.length ∧
          b.length = A.num_rows) →
      cg_m_checked A x b sigma M fuel = none) ∧
    (∀ (s : ZArrays) (beta_m1 beta_0 alpha_0 : ℚ),
      ¬(s.z_0_s.length = s.z_m1_s.length ∧ s.z_m1_s.length = s.z_1_s.length ∧
          s.z_1_s.length = s.sig.length) →
      compute_z_m_arrays s beta_m1 beta_0 alpha_0 = none) ∧
    (∀ (z_1_s z_0_s beta_0_s : List ℚ) (beta_0 : ℚ),
      ¬(z_1_s.length = z_0_s.length ∧ z_0_s.length = beta_0_s.length) →
      compute_b_m_arrays z_1_s z_0_s beta_0_s beta_0 = none) ∧
    (∀ (z_0_s z_1_s beta_0_s alpha_0_s : List ℚ) (beta_0 alpha_0 : ℚ),
      ¬(z_0_s.length = z_1_s.length ∧ z_0_s.length = alpha_0_s.length ∧
          alpha_0_s.length = beta_0_s.length) →
      compute_a_m_arrays z_0_s z_1_s beta_0_s alpha_0_s beta_0 alpha_0 = none) ∧
    (∀ alpha_0_s z_1_s beta_0_s r_0 x_0_s p_0_s : List ℚ,
      ¬(alpha_0_s.length = z_1_s.length ∧ z_1_s.length = beta_0_s.length ∧
          x_0_s.length = p_0_s.length ∧
          x_0_s.length = r_0.length * alpha_0_s.length) →
      compute_xp_m_arrays alpha_0_s z_1_s beta_0_s r_0 x_0_s p_0_s = none) := by
  refine ⟨?_, ?_, ?_, ?_, ?_⟩
  · intro A x b sigma M fuel h
    simp only [cg_m_checked]
    rw [if_neg h]
  · intro s beta_m1 beta_0 alpha_0 h
    simp only [compute_z_m_arrays]
    rw [if_neg h]
  · intro z_1_s z_0_s beta_0_s beta_0 h
    simp only [compute_b_m_arrays]
    rw [if_neg h]
  · intro z_0_s z_1_s beta_0_s alpha_0_s beta_0 alpha_0 h
    simp only [compute_a_m_arrays]
    rw [if_neg h]
  · intro alpha_0_s z_1_s beta_0_s r_0 x_0_s p_0_s h
    simp only [compute_xp_m_arrays]
    rw [if_neg h]

/-- Witness for C8: one concrete dimension violation per entry point. -/
theorem C8_dimension_asserts_witness :
    cg_m_checked idOp3 [] b3 sigma3 zeroResidualMonitor 1 = none ∧
    compute_z_m_arrays ⟨[1], [], [], []⟩ 0 0 0 = none ∧
    compute_b_m_arrays [1] [] [] 0 = none ∧
    compute_a_m_arrays [1] [] [] [] 0 0 = none ∧
    compute_xp_m_arrays [1] [] [] [] [] [1] = none :=
  ⟨C8_dimension_asserts.1 idOp3 [] b3 sigma3 zeroResidualMonitor 1
      (by norm_num [idOp3, b3, sigma3]),
   C8_dimension_asserts.2.1 ⟨[1], [], [], []⟩ 0 0 0 (by norm_num),
   C8_dimension_asserts.2.2.1 [1] [] [] 0 (by norm_num),
   C8_dimension_asserts.2.2.2.1 [1] [] [] [] 0 0 (by norm_num),
   C8_dimension_asserts.2.2.2.2 [1] [] [] [] [] [1] (by norm_num)⟩

/-! ### Claim C9: the solver never writes `b` or `sigma` -/

lemma cg_m_loop_b_sigma (A : Op) (M : Monitor) :
    ∀ (n : ℕ) (s out : CGMState), cg_m_loop A M n s = some out →
      out.b = s.b ∧ out.sigma = s.sigma := by
  intro n
  induction n with
  | zero =>
      intro s out h
      by_cases hf : M.finished s.iter s.r_0 = true
      · simp only [cg_m_loop, if_pos hf, Option.some.injEq] at h
        rw [← h]
        exact ⟨rfl, rfl⟩
      · simp only [cg_m_loop, if_neg hf] at h
        cases h
  | succ n ih =>
      intro s out h
      by_cases hf : M.finished s.iter s.r_0 = true
      · simp only [cg_m_loop, if_pos hf, Option.some.injEq] at h
        rw [← h]
        exact ⟨rfl, rfl⟩
      · simp only [cg_m_loop, if_neg hf] at h
        exact ih (cg_m_step A s) out h

/-- C9: on every terminating run of `cg_m`, the caller's `b` and `sigma`
buffers on exit are identical to their contents on entry; `x` is the only
caller-visible buffer the solver writes (the operator `A` is consulted only
through its product, and all other state is solver-internal scratch). -/
theorem C9_frame (A : Op) (x b sigma : List ℚ) (M : Monitor) (fuel : ℕ)
    (out : CGMState) (h : cg_m A x b sigma M fuel = some out) :
    out.b = b ∧ out.sigma = sigma := by
  have h' := cg_m_loop_b_sigma A M fuel _ out h
  exact ⟨h'.1, h'.2⟩

/-- Witness for C9 on an immediately-terminating concrete run. -/
theorem C9_frame_witness :
    (cg_m_init idOp3 x9 b3 sigma3).b = b3 ∧
    (cg_m_init idOp3 x9 b3 sigma3).sigma = sigma3 :=
  C9_frame idOp3 x9 b3 sigma3 alwaysMonitor 0 (cg_m_init idOp3 x9 b3 sigma3) rfl

/-! ### Claim C10: the `xx_0` accumulator is dead -/

lemma step_agree_noxx (A : Op) (s t : CGMState) (h : AgreeNoxx s t) :
    AgreeNoxx (cg_m_step A s) (cg_m_step_noxx A t) := by
  obtain ⟨h1, h2, h3, h4, h5, h6, h7, h8, h9, h10, h11, h12, h13, h14, h15⟩ := h
  simp only [AgreeNoxx, cg_m_step, cg_m_step_noxx, h1, h2, h3, h4, h5, h6, h7,
    h8, h9, h10, h11, h12, h13, h14, h15]
  simp

lemma loop_agree_noxx (A : Op) (M : Monitor) :
    ∀ (n : ℕ) (s t : CGMState), AgreeNoxx s t →
      (cg_m_loop A M n s).map (fun u => (u.x, u.r_0, u.iter)) =
      (cg_m_loop_noxx A M n t).map (fun u => (u.x, u.r_0, u.iter)) := by
  intro n
  induction n with
  | zero =>
      intro s t h
      have hf : M.finished s.iter s.r_0 = M.finished t.iter t.r_0 := by
        rw [h.2.2.2.1, h.2.2.2.2.2.2.2.2.2.2.2.2.2.2]
      simp only [cg_m_loop, cg_m_loop_noxx, hf]
      by_cases hfin : M.finished t.iter t.r_0 = true
      · rw [if_pos hfin, if_pos hfin]
        simp only [Option.map_some']
        rw [h.1, h.2.2.2.1, h.2.2.2.2.2.2.2.2.2.2.2.2.2.2]
      · rw [if_neg hfin, if_neg hfin]
  | succ n ih =>
      intro s t h
      have hf : M.finished s.iter s.r_0 = M.finished t.iter t.r_0 := by
        rw [h.2.2.2.1, h.2.2.2.2.2.2.2.2.2.2.2.2.2.2]
      simp only [cg_m_loop, cg_m_loop_noxx, hf]
      by_cases hfin : M.finished t.iter t.r_0 = true
      · rw [if_pos hfin, if_pos hfin]
        simp only [Option.map_some']
        rw [h.1, h.2.2.2.1, h.2.2.2.2.2.2.2.2.2.2.2.2.2.2]
      · rw [if_neg hfin, if_neg hfin]
        exact ih _ _ (step_agree_noxx A s t h)

/-- C10: `xx_0` is initialized to zero, updated once per iteration by
`xx_0 += -beta_0 * p_0`, and is otherwise dead: the variant of `cg_m` with
the update removed produces the same final `x`, the same residual and the
same monitor interactions on every input. -/
theorem C10_xx0_dead (A : Op) (x b sigma : List ℚ) (M : Monitor) (fuel : ℕ) :
    (cg_m_init A x b sigma).xx_0 = List.replicate A.num_rows 0 ∧
    (∀ s : CGMState,
      (cg_m_step A s).xx_0 = axpy s.p_0 s.xx_0 (-(cg_m_step A s).beta_0)) ∧
    (cg_m A x b sigma M fuel).map (fun u => (u.x, u.r_0, u.iter)) =
      (cg_m_noxx A x b sigma M fuel).map (fun u => (u.x, u.r_0, u.iter)) := by
  refine ⟨rfl, fun s => rfl, ?_⟩
  exact loop_agree_noxx A M fuel _ _
    ⟨rfl, rfl, rfl, rfl, rfl, rfl, rfl, rfl, rfl, rfl, rfl, rfl, rfl, rfl, rfl⟩

/-! ### Claim C6: single zero shift collapses to plain CG -/

lemma list_ext_getD (l1 l2 : List ℚ) (hlen : l1.length = l2.length)
    (h : ∀ i, i < l1.length → l1.getD i 0 = l2.getD i 0) : l1 = l2 := by
  apply List.ext_getElem hlen
  intro i h1 h2
  have h' := h i h1
  rwa [List.getD_eq_getElem _ 0 h1, List.getD_eq_getElem _ 0 h2] at h'

lemma getD_zipWith (f : ℚ → ℚ → ℚ) (x y : List ℚ) (i : ℕ)
    (h1 : i < x.length) (h2 : i < y.length) :
    (List.zipWith f x y).getD i 0 = f (x.getD i 0) (y.getD i 0) := by
  rw [List.getD_eq_getElem _ 0 (by simp [List.length_zipWith]; omega),
    List.getD_eq_getElem _ 0 h1, List.getD_eq_getElem _ 0 h2,
    List.getElem_zipWith]

lemma getD_axpy (x y : List ℚ) (a : ℚ) (i : ℕ)
    (h1 : i < x.length) (h2 : i < y.length) :
    (axpy x y a).getD i 0 = y.getD i 0 + a * x.getD i 0 := by
  simp only [axpy]
  rw [getD_zipWith _ _ _ _ h1 h2]

lemma getD_scal (x : List ℚ) (a : ℚ) (i : ℕ) (h : i < x.length) :
    (scal x a).getD i 0 = a * x.getD i 0 := by
  simp only [scal]
  rw [List.getD_eq_getElem _ 0 (by simpa using h), List.getElem_map,
    List.getD_eq_getElem _ 0 h]

lemma length_axpy (x y : List ℚ) (a : ℚ) :
    (axpy x y a).length = min x.length y.length := by
  simp [axpy]

lemma length_scal (x : List ℚ) (a : ℚ) : (scal x a).length = x.length := by
  simp [scal]

lemma zipWith_congr_fun (f g : ℚ → ℚ → ℚ) (h : ∀ a b, f a b = g a b)
    (x y : List ℚ) : List.zipWith f x y = List.zipWith g x y := by
  have hfg : f = g := funext fun a => funext fun b => h a b
  rw [hfg]

lemma KERNEL_Z_zero_shift (bm b0 a0 : ℚ) (h : bm ≠ 0) :
    KERNEL_Z bm b0 a0 1 1 0 = 1 := by
  simp only [KERNEL_Z]
  norm_num
  exact div_self h

lemma compute_z_m_zero_shift (bm b0 a0 : ℚ) (h : bm ≠ 0) :
    compute_z_m [1] [1] [0] bm b0 a0 = [1] := by
  show [KERNEL_Z bm b0 a0 1 1 0] = [1]
  rw [KERNEL_Z_zero_shift bm b0 a0 h]

lemma compute_b_m_ones (b0 : ℚ) : compute_b_m [1] [1] b0 = [b0] := by
  show [KERNEL_B b0 1 1] = [b0]
  simp [KERNEL_B]

lemma compute_a_m_collapse (b0 a0 : ℚ) (h : b0 ≠ 0) :
    compute_a_m [1] [1] [b0] b0 a0 = [a0] := by
  show [KERNEL_A b0 a0 1 1 b0] = [a0]
  simp only [KERNEL_A, List.cons.injEq, and_true]
  field_simp

lemma compute_xp_m_single (a0s z1 b0s : ℚ) (R X P : List ℚ)
    (hxr : X.length = R.length) (hpr : P.length = R.length) :
    compute_xp_m [a0s] [z1] [b0s] R X P =
      (List.zipWith (fun pi xi => xi - b0s * pi) P X,
       List.zipWith (fun pi ri => z1 * ri + a0s * pi) P R) := by
  have hx1 : ∀ i, i < X.length → i / R.length = 0 := fun i hi =>
    Nat.div_eq_of_lt (by omega)
  refine Prod.ext ?_ ?_
  · show transformIdx (KERNEL_X R.length [b0s] P) X = _
    apply list_ext_getD
    · rw [length_transformIdx, List.length_zipWith]
      omega
    · intro i hi
      rw [length_transformIdx] at hi
      rw [getD_transformIdx _ _ _ hi, getD_zipWith _ _ _ _ (by omega) hi]
      simp only [KERNEL_X]
      rw [hx1 i hi]
      rfl
  · show transformIdx (KERNEL_P R.length [a0s] [z1] R) P = _
    apply list_ext_getD
    · rw [length_transformIdx, List.length_zipWith]
      omega
    · intro i hi
      rw [length_transformIdx] at hi
      rw [getD_transformIdx _ _ _ hi, getD_zipWith _ _ _ _ (by omega) (by omega)]
      simp only [KERNEL_P]
      rw [Nat.div_eq_of_lt (by omega), Nat.mod_eq_of_lt (by omega)]
      rfl

lemma corr_step (A : Op) (hA : ∀ v, (A.mul v).length = v.length)
    (s : CGMState) (t : CGState) (hc : Corr s t)
    (hrne : dotc t.r t.r ≠ 0) (hpne : dotc t.p (A.mul t.p) ≠ 0) :
    Corr (cg_m_step A s) (cg_step A t) := by
  obtain ⟨hsig, hx, hr0, hp0, hps, hz0, hzm1, hrsq, hb0, hit, hrv, hlr, hlx⟩ :=
    hc
  have hrsqne : t.rsq ≠ 0 := by rw [hrv]; exact hrne
  have hb0' : -(t.rsq / dotc t.p (A.mul t.p)) ≠ 0 :=
    neg_ne_zero.mpr (div_ne_zero hrsqne hpne)
  simp only [Corr]
  refine ⟨?_, ?_, ?_, ?_, ?_, ?_, ?_, ?_, ?_, ?_, ?_, ?_, ?_⟩
  · exact hsig
  · -- stacked solution against the plain-CG solution update
    simp only [cg_m_step, cg_step, hsig, hx, hr0, hp0, hps, hz0, hzm1, hrsq,
      hit, neg_div]
    set R : List ℚ := axpy (A.mul t.p) t.r (-(t.rsq / dotc t.p (A.mul t.p)))
      with hR
    have hRlen : R.length = t.p.length := by
      rw [hR, length_axpy, hA, hlr]
      omega
    rw [compute_z_m_zero_shift _ _ _ hb0, compute_b_m_ones,
      compute_a_m_collapse _ _ hb0',
      compute_xp_m_single _ _ _ R t.x t.p (by omega) (by omega)]
    show List.zipWith _ t.p t.x = axpy t.p t.x (t.rsq / dotc t.p (A.mul t.p))
    simp only [axpy]
    exact zipWith_congr_fun _ _ (fun a b => by ring) t.p t.x
  · -- residuals agree
    simp only [cg_m_step, cg_step, hr0, hp0, hrsq, neg_div]
  · -- base search direction against the plain-CG direction update
    simp only [cg_m_step, cg_step, hsig, hx, hr0, hp0, hps, hz0, hzm1, hrsq,
      hit, neg_div]
    set R : List ℚ := axpy (A.mul t.p) t.r (-(t.rsq / dotc t.p (A.mul t.p)))
      with hR
    have hRlen : R.length = t.p.length := by
      rw [hR, length_axpy, hA, hlr]
      omega
    by_cases hz : dotc R R = 0
    · have hzero := dotc_self_eq_zero hz
      apply list_ext_getD
      · simp only [length_scal, length_axpy, hRlen]
      · intro i hi
        rw [length_scal, length_axpy] at hi
        have hiR : i < R.length := by omega
        have hiP : i < t.p.length := by omega
        rw [getD_scal _ _ _ (by rw [length_axpy]; omega),
          getD_axpy _ _ _ _ hiR hiP, getD_axpy _ _ _ _ hiP hiR, hz]
        have hRi : R.getD i 0 = 0 := by
          rw [List.getD_eq_getElem _ 0 hiR]
          exact hzero i hiR
        rw [hRi]
        ring
    · rw [scal_axpy_eq R t.p _ _ (by field_simp)]
      simp only [axpy]
      rw [List.zipWith_comm]
  · -- stacked search direction against the plain-CG direction update
    simp only [cg_m_step, cg_step, hsig, hx, hr0, hp0, hps, hz0, hzm1, hrsq,
      hit, neg_div]
    set R : List ℚ := axpy (A.mul t.p) t.r (-(t.rsq / dotc t.p (A.mul t.p)))
      with hR
    have hRlen : R.length = t.p.length := by
      rw [hR, length_axpy, hA, hlr]
      omega
    rw [compute_z_m_zero_shift _ _ _ hb0, compute_b_m_ones,
      compute_a_m_collapse _ _ hb0',
      compute_xp_m_single _ _ _ R t.x t.p (by omega) (by omega)]
    show List.zipWith _ t.p R = axpy t.p R (dotc R R / t.rsq)
    simp only [axpy]
    exact zipWith_congr_fun _ _ (fun a b => by ring) t.p R
  · -- the new zeta generation is again one
    simp only [cg_m_step, hsig, hz0, hzm1]
    exact compute_z_m_zero_shift _ _ _ hb0
  · exact hz0
  · -- carried residual norm squares agree
    simp only [cg_m_step, cg_step, hr0, hp0, hrsq, neg_div]
  · -- the new base beta is nonzero
    simp only [cg_m_step, hrsq, hp0, neg_div]
    exact hb0'
  · -- iteration counters advance together
    simp only [cg_m_step, cg_step, hit]
  · -- the plain-CG invariant rsq = (r, r) is maintained
    simp only [cg_step]
  · -- residual and direction lengths stay equal
    simp only [cg_step, length_axpy, hA, hlr]
    omega
  · -- solution and direction lengths stay equal
    simp only [cg_step, length_axpy, hA, hlr, hlx]
    omega

lemma cgm_cg_loop (A : Op) (M : Monitor)
    (hA : ∀ v, (A.mul v).length = v.length) :
    ∀ (n : ℕ) (s : CGMState) (t : CGState), Corr s t →
      (∀ j, j < n → cgOk A M ((cg_step A)^[j] t)) →
      (cg_m_loop A M n s).map (fun u => (u.x, u.iter)) =
      (cg_loop A M n t).map (fun u => (u.x, u.iter)) := by
  intro n
  induction n with
  | zero =>
      intro s t hc hok
      simp only [cg_m_loop, cg_loop, hc.2.2.1, hc.2.2.2.2.2.2.2.2.2.1]
      by_cases hf : M.finished t.iter t.r = true
      · rw [if_pos hf, if_pos hf]
        simp only [Option.map_some']
        rw [hc.2.1, hc.2.2.2.2.2.2.2.2.2.1]
      · rw [if_neg hf, if_neg hf]
        rfl
  | succ n ih =>
      intro s t hc hok
      simp only [cg_m_loop, cg_loop, hc.2.2.1, hc.2.2.2.2.2.2.2.2.2.1]
      by_cases hf : M.finished t.iter t.r = true
      · rw [if_pos hf, if_pos hf]
        simp only [Option.map_some']
        rw [hc.2.1, hc.2.2.2.2.2.2.2.2.2.1]
      · rw [if_neg hf, if_neg hf]
        have hok0 := hok 0 (Nat.succ_pos n)
        rw [Function.iterate_zero_apply] at hok0
        have hgood : dotc t.r t.r ≠ 0 ∧ dotc t.p (A.mul t.p) ≠ 0 := by
          cases hok0 with
          | inl h => exact absurd h hf
          | inr h => exact h
        exact ih _ _ (corr_step A hA s t hc hgood.1 hgood.2) fun j hj => by
          rw [← Function.iterate_succ_apply]
          exact hok (j + 1) (by omega)

/-- C6: with the single zero shift `sigma = [0]`, a length-preserving
operator, a stacked buffer of the base length, and no breakdown at any live
iteration (as holds for SPD operators in exact arithmetic), `cg_m` and plain
CG produce the same solution vector and the same monitor iteration count for
every fuel bound.  The proof goes through the per-iteration collapse
`z_1 = [1]`, `beta_0_s = [beta_0]`, `alpha_0_s = [alpha_0]`. -/
theorem C6_zero_shift_refinement (A : Op) (x b : List ℚ) (M : Monitor)
    (fuel : ℕ) (hA : ∀ v, (A.mul v).length = v.length)
    (hx : x.length = b.length)
    (hok : ∀ j, j < fuel → cgOk A M ((cg_step A)^[j] (cg_init x b))) :
    (cg_m A x b [0] M fuel).map (fun u => (u.x, u.iter)) =
    (cg A x b M fuel).map (fun u => (u.x, u.iter)) := by
  apply cgm_cg_loop A M hA fuel _ _ _ hok
  refine ⟨rfl, rfl, rfl, rfl, ?_, rfl, rfl, rfl, one_ne_zero, rfl, rfl, rfl,
    ?_⟩
  · show (vectorize_copy b (List.replicate x.length 0)).2 = b
    apply list_ext_getD
    · simp [vectorize_copy, hx]
    · intro i hi
      simp only [vectorize_copy, List.length_map, List.length_range,
        List.length_replicate] at hi
      simp only [vectorize_copy]
      rw [List.getD_eq_getElem _ 0 (by simp; omega), List.getElem_map,
        List.getElem_range, KERNEL_VCOPY, Nat.mod_eq_of_lt (by omega)]
  · show (List.replicate x.length (0 : ℚ)).length = b.length
    simp [hx]

/-- Witness for C6: the identity operator on three rows with `b = [1,1,1]`,
the single zero shift and the zero-residual monitor. -/
theorem C6_zero_shift_refinement_witness :
    (cg_m idOp3 [0, 0, 0] b3 [0] zeroResidualMonitor 2).map
        (fun u => (u.x, u.iter)) =
      (cg idOp3 [0, 0, 0] b3 zeroResidualMonitor 2).map
        (fun u => (u.x, u.iter)) := by
  apply C6_zero_shift_refinement idOp3 [0, 0, 0] b3 zeroResidualMonitor 2
    (fun v => rfl) rfl
  intro j hj
  have hrepl3 : List.replicate 3 (0 : ℚ) = [0, 0, 0] := rfl
  interval_cases j
  · exact Or.inr
      ⟨by norm_num [Function.iterate_zero_apply, cg_init, dotc, b3],
       by norm_num [Function.iterate_zero_apply, cg_init, dotc, b3, idOp3]⟩
  · left
    have hstepcg : cg_step idOp3 (cg_init [0, 0, 0] b3) =
        { x := [1, 1, 1], r := [0, 0, 0], p := [0, 0, 0], rsq := 0,
          iter := 1 } := by
      norm_num [cg_step, cg_init, idOp3, b3, dotc, axpy, hrepl3]
    rw [Function.iterate_one, hstepcg]
    show decide
      ([(0 : ℚ), 0, 0] = List.replicate ([(0 : ℚ), 0, 0]).length 0) = true
    exact decide_eq_true rfl

end CuspCGM
